import Mathlib

/-!
# Verification of `cleanrust` (src/main.rs)

Shallow embedding of the core of `cleanrust`, a CLI tool that scans a
directory tree and deletes Rust build-artifact directories (`target`
directories that have a sibling `Cargo.toml` in the same listing).

The embedding follows `src/main.rs`:
* `process_entry`, `ScanState`, `Job` and the per-listing loop of `scan`
  are translated as pure functions over a directory listing given as data
  (a list of `(name, is_directory, metadata-failure)` entries; `none`
  stands for a failed `read_dir`).
* The worker body of `clean_dir` (lines 60-91) is translated as a pure
  step function producing the Observer events, the per-job `has_error`
  flag and the jobs re-enqueued by that step.  The `Sender` handle is
  summarised by a boolean `queueClosed`: `sender.send(job)` fails exactly
  when every receiver is gone.
* The whole run is serialised as a fuel-bounded drain of the job queue;
  the aggregate boolean is the OR of the per-job flags, which is what the
  per-worker fold plus the final `any` over workers computes regardless
  of how jobs are distributed among workers.
-/

/-- Paths are modelled as lists of components; `entry.path()` for an entry
named `n` of directory `dir` is `dir ++ [n]`. -/
abbrev FsPath := List String

/-- One entry of a directory listing: its file name, whether its file type
is a directory, and whether the `entry.file_type()` call fails (the `?` in
`process_entry`).  Names produced by `read_dir` are plain file names
(never `.` or `..`), so `path.file_name()` on `dir.join(name)` is
`Some(name)`. -/
structure DirEntry where
  name : String
  isDir : Bool
  typeErr : Bool
deriving DecidableEq, Repr

/-- `io::Error` is opaque to the program: it is only ever counted. -/
abbrev IOError := Unit

/-- `Job` from main.rs.  The `Sender<Job>` handle carried by `Scan` has no
pure content; re-enqueueing is modelled in the worker step below. -/
inductive Job where
  | Scan (path : FsPath)
  | Remove (path : FsPath)
deriving DecidableEq, Repr

/-- `ScanState` from main.rs. -/
inductive ScanState where
  | Nothing
  | FoundCargoToml
  | FoundTarget (path : FsPath)
deriving DecidableEq, Repr

/-- `process_entry` from main.rs (lines 186-225) as a pure function of the
current state and the entry.  `entry.file_type()?` runs first: on failure
the error is returned and the state is untouched.  Otherwise the entry is
classified by name and file type, returning the next state and the job
emitted, if any. -/
def process_entry (dir : FsPath) (state : ScanState) (entry : DirEntry) :
    Except IOError (ScanState × Option Job) :=
  if entry.typeErr then .error ()
  else
    let path := dir ++ [entry.name]
    if entry.name = "Cargo.toml" then
      match state with
      | .Nothing => .ok (.FoundCargoToml, none)
      | .FoundCargoToml => .ok (.FoundCargoToml, none)
      | .FoundTarget target => .ok (.FoundCargoToml, some (.Remove target))
    else if entry.isDir && entry.name = "target" then
      match state with
      | .Nothing => .ok (.FoundTarget path, none)
      | .FoundCargoToml => .ok (.FoundCargoToml, some (.Remove path))
      | .FoundTarget t => .ok (.FoundTarget t, none)
    else if entry.isDir then .ok (state, some (.Scan path))
    else .ok (state, none)

/-- The per-listing loop of `scan` (lines 177-183): thread the `ScanState`
through the entries in listing order; `Ok(Some(job))` is yielded as
`Ok(job)`, `Ok(None)` is filtered out (`filter_map` + `transpose`), and a
failing entry yields one `Err` without touching the state. -/
def scanGo (dir : FsPath) (state : ScanState) :
    List DirEntry → List (Except IOError Job)
  | [] => []
  | e :: rest =>
    match process_entry dir state e with
    | .error err => .error err :: scanGo dir state rest
    | .ok (s, none) => scanGo dir s rest
    | .ok (s, some j) => .ok j :: scanGo dir s rest

/-- `scan` from main.rs (lines 172-184): a `read_dir` failure (`none`
listing) is a single error for the whole scan and yields no jobs;
otherwise the entries are classified starting from `ScanState::Nothing`. -/
def scan (dir : FsPath) (listing : Option (List DirEntry)) :
    Except IOError (List (Except IOError Job)) :=
  match listing with
  | none => .error ()
  | some entries => .ok (scanGo dir ScanState.Nothing entries)

/-- The `ScanState` after processing a listing prefix (a failing entry
leaves the state unchanged). -/
def stateAfter (dir : FsPath) (state : ScanState) : List DirEntry → ScanState
  | [] => state
  | e :: rest =>
    match process_entry dir state e with
    | .error _ => stateAfter dir state rest
    | .ok (s, _) => stateAfter dir s rest

/-- The paths of the `Remove` jobs among a scan's yielded results. -/
def removePaths (results : List (Except IOError Job)) : List FsPath :=
  results.filterMap fun r =>
    match r with
    | .ok (Job.Remove p) => some p
    | _ => none

/-- The three Observer callbacks (`on_error`, `on_removal`, `on_scanned`),
recorded as events in call order. -/
inductive Event where
  | error
  | removal (path : FsPath)
  | scanned (path : FsPath)
deriving DecidableEq, Repr

/-- The fold over a scan's yielded results in the worker body (main.rs
lines 64-70): a successfully classified job is re-enqueued and
`sender.send(job).is_err()` — true exactly when the queue is closed — is
OR-ed into `has_error`; a yielded error is reported to the Observer and
sets `has_error`.  Returns the Observer events, the `has_error` flag and
the re-enqueued jobs in order. -/
def foldScanResults (queueClosed : Bool) :
    List (Except IOError Job) → List Event × Bool × List Job
  | [] => ([], false, [])
  | .ok j :: rest =>
    let (evs, he, enq) := foldScanResults queueClosed rest
    (evs, queueClosed || he, if queueClosed then enq else j :: enq)
  | .error _ :: rest =>
    let (evs, _, enq) := foldScanResults queueClosed rest
    (Event.error :: evs, true, enq)

/-- Execution of one `Job::Scan` by a worker (main.rs lines 62-78): run
`scan`; on listing failure report the error; otherwise process the yielded
results; in every case report `on_scanned` once at the end. -/
def execScanJob (queueClosed : Bool) (dir : FsPath)
    (listing : Option (List DirEntry)) : List Event × Bool × List Job :=
  match scan dir listing with
  | .error _ => ([Event.error, Event.scanned dir], true, [])
  | .ok results =>
    let (evs, he, enq) := foldScanResults queueClosed results
    (evs ++ [Event.scanned dir], he, enq)

/-- Execution of one `Job::Remove` by a worker (main.rs lines 79-88):
`remove_dir_all` success reports a removal, failure reports an error. -/
def execRemoveJob (removeOk : Bool) (path : FsPath) :
    List Event × Bool × List Job :=
  if removeOk then ([Event.removal path], false, [])
  else ([Event.error], true, [])

/-- A filesystem view: the listing `read_dir` returns for each directory
(`none` = cannot open/read it), and whether `remove_dir_all` succeeds. -/
structure Fs where
  listing : FsPath → Option (List DirEntry)
  removeOk : FsPath → Bool

/-- One worker step: execute one job against the filesystem. -/
def execJob (fs : Fs) (queueClosed : Bool) :
    Job → List Event × Bool × List Job
  | .Scan dir => execScanJob queueClosed dir (fs.listing dir)
  | .Remove path => execRemoveJob (fs.removeOk path) path

/-- The run serialised: drain the queue, OR-ing the per-job `has_error`
flags — exactly what the per-worker fold (line 60) plus the final
`any` over workers (line 96) computes, for any distribution of jobs among
workers.  While jobs are being executed the receiver is alive, so `send`
succeeds: the queue is open (`queueClosed = false`).  `fuel` bounds the
recursion; `none` means the bound was hit. -/
def runQueue (fs : Fs) : Nat → List Job → Option (Bool × List Event)
  | _, [] => some (false, [])
  | 0, _ :: _ => none
  | fuel + 1, job :: rest =>
    let r := execJob fs false job
    match runQueue fs fuel (rest ++ r.2.2) with
    | none => none
    | some (he2, evs2) => some (r.2.1 || he2, r.1 ++ evs2)

/-- `clean_dir` from main.rs (lines 48-99): with `worker_count = 0` the
scope spawns no threads, `workers.into_iter().any(..)` over the empty
vector is `false`, and the function returns `!false = true` at once (the
seeded root job is simply dropped with the queue); with at least one
worker the queue seeded with `Job::Scan(dir)` is drained and the result is
the negation of the OR of all per-job error flags. -/
def clean_dir (fs : Fs) (worker_count : Nat) (dir : FsPath) (fuel : Nat) :
    Option Bool :=
  if worker_count = 0 then some true
  else (runQueue fs fuel [Job.Scan dir]).map fun r => !r.1

/-- The exit-status mapping in `main` (lines 41-45): `ExitCode::SUCCESS`
(0) on `true`, `ExitCode::FAILURE` (nonzero, 1) on `false`. -/
def mainExitCode (success : Bool) : Nat := if success then 0 else 1

/-- The `on_scanned` events among a worker step's events. -/
def scannedEvents (evs : List Event) : List Event :=
  evs.filter fun ev =>
    match ev with
    | Event.scanned _ => true
    | _ => false

/-! ## Basic lemmas about `removePaths` and `scanGo` -/

@[simp]
theorem removePaths_nil : removePaths [] = [] := rfl

@[simp]
theorem removePaths_cons_remove (p : FsPath) (rs : List (Except IOError Job)) :
    removePaths (Except.ok (Job.Remove p) :: rs) = p :: removePaths rs := rfl

@[simp]
theorem removePaths_cons_scan (p : FsPath) (rs : List (Except IOError Job)) :
    removePaths (Except.ok (Job.Scan p) :: rs) = removePaths rs := rfl

@[simp]
theorem removePaths_cons_error (e : IOError) (rs : List (Except IOError Job)) :
    removePaths (Except.error e :: rs) = removePaths rs := rfl

/-- A `Scan` job yielded by the listing loop is for a subdirectory whose
name is neither the artifact marker nor the manifest marker. -/
theorem process_entry_scan_inv (dir : FsPath) (s : ScanState) (e : DirEntry)
    (s' : ScanState) (p : FsPath)
    (h : process_entry dir s e = Except.ok (s', some (Job.Scan p))) :
    p = dir ++ [e.name] ∧ e.name ≠ "target" ∧ e.name ≠ "Cargo.toml" := by
  obtain ⟨n, d, t⟩ := e
  cases t with
  | true => simp [process_entry] at h
  | false =>
    by_cases hc : n = "Cargo.toml"
    · cases s <;> simp [process_entry, hc] at h
    · by_cases htg : n = "target"
      · cases d with
        | false => simp [process_entry, hc, htg] at h
        | true => cases s <;> simp [process_entry, hc, htg] at h
      · cases d with
        | false => simp [process_entry, hc, htg] at h
        | true =>
          simp [process_entry, hc, htg] at h
          exact ⟨h.2.symm, htg, hc⟩

/-- Splitting a listing: the loop processes the suffix from the state
reached after the prefix. -/
theorem scanGo_append (dir : FsPath) :
    ∀ (xs : List DirEntry) (ys : List DirEntry) (s : ScanState),
      scanGo dir s (xs ++ ys) =
        scanGo dir s xs ++ scanGo dir (stateAfter dir s xs) ys
  | [], ys, s => by simp [scanGo, stateAfter]
  | e :: xs, ys, s => by
    simp only [List.cons_append, scanGo, stateAfter]
    rcases hpe : process_entry dir s e with err | ⟨s', j⟩
    · simp [scanGo_append dir xs ys s]
    · cases j <;> simp [scanGo_append dir xs ys s']

/-- Every `Scan` job yielded within a listing targets an immediate child
whose name is neither `target` nor `Cargo.toml`. -/
theorem scanGo_scan_shape (dir : FsPath) :
    ∀ (L : List DirEntry) (s : ScanState) (p : FsPath),
      Except.ok (Job.Scan p) ∈ scanGo dir s L →
      ∃ n, p = dir ++ [n] ∧ n ≠ "target" ∧ n ≠ "Cargo.toml"
  | [], s, p, h => by simp [scanGo] at h
  | e :: rest, s, p, h => by
    rw [scanGo] at h
    rcases hpe : process_entry dir s e with err | ⟨s', j⟩ <;> rw [hpe] at h
    · rw [List.mem_cons] at h
      rcases h with h | h
      · exact absurd h (by simp)
      · exact scanGo_scan_shape dir rest s p h
    · cases j with
      | none => exact scanGo_scan_shape dir rest s' p h
      | some j =>
        rw [List.mem_cons] at h
        rcases h with h | h
        · obtain rfl : j = Job.Scan p := by
            cases h
            rfl
          exact ⟨e.name, process_entry_scan_inv dir s e s' p hpe⟩
        · exact scanGo_scan_shape dir rest s' p h

/-! ## Evaluation lemmas for `process_entry` -/

/-- A `Cargo.toml`-named entry is classified by name alone: whatever its
file type, the manifest row of the table applies. -/
theorem process_entry_manifest_eq (dir : FsPath) (s : ScanState)
    (e : DirEntry) (ht : e.typeErr = false) (hc : e.name = "Cargo.toml") :
    process_entry dir s e = Except.ok (ScanState.FoundCargoToml,
      match s with
      | ScanState.FoundTarget t => some (Job.Remove t)
      | _ => none) := by
  cases s <;> simp [process_entry, ht, hc]

/-- A directory entry named `target`: the artifact row of the table. -/
theorem process_entry_targetDir_eq (dir : FsPath) (s : ScanState)
    (e : DirEntry) (ht : e.typeErr = false) (hc : e.name = "target")
    (hd : e.isDir = true) :
    process_entry dir s e = Except.ok (match s with
      | ScanState.Nothing => (ScanState.FoundTarget (dir ++ ["target"]), none)
      | ScanState.FoundCargoToml =>
          (ScanState.FoundCargoToml, some (Job.Remove (dir ++ ["target"])))
      | ScanState.FoundTarget t => (ScanState.FoundTarget t, none)) := by
  cases s <;> simp [process_entry, ht, hc, hd]

/-! ## Per-state characterisation of the removals of one listing -/

/-- From `FoundCargoToml`, the removals emitted over the rest of the
listing are exactly the artifact path, present iff a directory named
`target` appears among the remaining entries. -/
theorem removePaths_foundCargo (dir p : FsPath) :
    ∀ L : List DirEntry, (∀ e ∈ L, e.typeErr = false) →
      (p ∈ removePaths (scanGo dir ScanState.FoundCargoToml L) ↔
        p = dir ++ ["target"] ∧ ∃ e ∈ L, e.isDir = true ∧ e.name = "target")
  | [], _ => by simp [scanGo]
  | e :: rest, h => by
    have hte : e.typeErr = false := h e (List.mem_cons_self e rest)
    have hrest : ∀ x ∈ rest, x.typeErr = false :=
      fun x hx => h x (List.mem_cons_of_mem e hx)
    have ih := removePaths_foundCargo dir p rest hrest
    by_cases hc : e.name = "Cargo.toml"
    · simp [scanGo, process_entry, hte, hc, ih]
    · by_cases htg : e.name = "target"
      · cases hd : e.isDir with
        | true =>
          simp [scanGo, process_entry, hte, hc, htg, hd, ih]
          tauto
        | false =>
          simp [scanGo, process_entry, hte, hc, htg, hd, ih]
      · cases hd : e.isDir with
        | true =>
          simp [scanGo, process_entry, hte, hc, htg, hd, ih]
        | false =>
          simp [scanGo, process_entry, hte, hc, htg, hd, ih]

/-- From `FoundTarget (dir ++ ["target"])` — the only pending-artifact
state reachable from `Nothing` — the artifact is removed iff the manifest
appears among the remaining entries. -/
theorem removePaths_foundTarget (dir p : FsPath) :
    ∀ L : List DirEntry, (∀ e ∈ L, e.typeErr = false) →
      (p ∈ removePaths
          (scanGo dir (ScanState.FoundTarget (dir ++ ["target"])) L) ↔
        p = dir ++ ["target"] ∧ ∃ e ∈ L, e.name = "Cargo.toml")
  | [], _ => by simp [scanGo]
  | e :: rest, h => by
    have hte : e.typeErr = false := h e (List.mem_cons_self e rest)
    have hrest : ∀ x ∈ rest, x.typeErr = false :=
      fun x hx => h x (List.mem_cons_of_mem e hx)
    have ih := removePaths_foundTarget dir p rest hrest
    by_cases hc : e.name = "Cargo.toml"
    · have hfc := removePaths_foundCargo dir p rest hrest
      simp [scanGo, process_entry, hte, hc, hfc]
      tauto
    · by_cases htg : e.name = "target"
      · cases hd : e.isDir with
        | true => simp [scanGo, process_entry, hte, hc, htg, hd, ih]
        | false => simp [scanGo, process_entry, hte, hc, htg, hd, ih]
      · cases hd : e.isDir with
        | true => simp [scanGo, process_entry, hte, hc, htg, hd, ih]
        | false => simp [scanGo, process_entry, hte, hc, htg, hd, ih]

/-- From `Nothing`, the removals of one listing are exactly the artifact
path, present iff both a directory named `target` and an entry named
`Cargo.toml` occur in the listing — in either order. -/
theorem removePaths_nothing (dir p : FsPath) :
    ∀ L : List DirEntry, (∀ e ∈ L, e.typeErr = false) →
      (p ∈ removePaths (scanGo dir ScanState.Nothing L) ↔
        p = dir ++ ["target"] ∧
          (∃ e ∈ L, e.isDir = true ∧ e.name = "target") ∧
          ∃ e ∈ L, e.name = "Cargo.toml")
  | [], _ => by simp [scanGo]
  | e :: rest, h => by
    have hte : e.typeErr = false := h e (List.mem_cons_self e rest)
    have hrest : ∀ x ∈ rest, x.typeErr = false :=
      fun x hx => h x (List.mem_cons_of_mem e hx)
    have ih := removePaths_nothing dir p rest hrest
    by_cases hc : e.name = "Cargo.toml"
    · have hfc := removePaths_foundCargo dir p rest hrest
      simp [scanGo, process_entry, hte, hc, hfc]
    · by_cases htg : e.name = "target"
      · cases hd : e.isDir with
        | true =>
          have hft := removePaths_foundTarget dir p rest hrest
          rw [scanGo, process_entry_targetDir_eq dir _ e hte htg hd]
          simp only [hft]
          simp [hc, htg, hd]
        | false => simp [scanGo, process_entry, hte, hc, htg, hd, ih]
      · cases hd : e.isDir with
        | true => simp [scanGo, process_entry, hte, hc, htg, hd, ih]
        | false => simp [scanGo, process_entry, hte, hc, htg, hd, ih]

/-! ## Worker-step lemmas -/

/-- Closed form of the worker's fold over a scan's results: the Observer
sees one error event per yielded error; `has_error` is set by a yielded
error and, when the queue is closed, by every attempted re-enqueue; the
re-enqueued jobs are the successfully classified ones, or none when the
queue is closed. -/
theorem foldScanResults_eq (qc : Bool) :
    ∀ rs : List (Except IOError Job),
      foldScanResults qc rs =
        (rs.filterMap fun r =>
          match r with
          | .error _ => some Event.error
          | .ok _ => none,
         rs.any fun r =>
          match r with
          | .error _ => true
          | .ok _ => qc,
         if qc then [] else rs.filterMap fun r =>
          match r with
          | .ok j => some j
          | .error _ => none)
  | [] => by simp [foldScanResults]
  | .ok j :: rest => by
    simp [foldScanResults, foldScanResults_eq qc rest]
    cases qc <;> simp
  | .error e :: rest => by
    simp [foldScanResults, foldScanResults_eq qc rest]

/-- The error-event stream of a scan's results contains no `scanned`
event. -/
theorem scannedEvents_errorsOnly (rs : List (Except IOError Job)) :
    scannedEvents (rs.filterMap fun r =>
      match r with
      | .error _ => some Event.error
      | .ok _ => none) = [] := by
  induction rs with
  | nil => rfl
  | cons r rest ih => cases r <;> simp [scannedEvents] at ih ⊢ <;> exact ih

theorem scannedEvents_append (a b : List Event) :
    scannedEvents (a ++ b) = scannedEvents a ++ scannedEvents b := by
  simp [scannedEvents]

/-- An error event occurs among a scan's per-result events iff some
result was an error. -/
theorem error_mem_errorsOnly (rs : List (Except IOError Job)) :
    Event.error ∈ (rs.filterMap fun r =>
      match r with
      | .error _ => some Event.error
      | .ok _ => none) ↔
    (rs.any fun r =>
      match r with
      | .error _ => true
      | .ok _ => false) = true := by
  induction rs with
  | nil => simp
  | cons r rest ih => cases r <;> simp [ih]

/-- With the queue open, a worker step's `has_error` flag is set iff the
step reported an error event. -/
theorem execJob_error_iff (fs : Fs) (job : Job) :
    (execJob fs false job).2.1 = true ↔
      Event.error ∈ (execJob fs false job).1 := by
  cases job with
  | Scan dir =>
    cases hl : fs.listing dir with
    | none => simp [execJob, execScanJob, scan, hl]
    | some entries =>
      simp [execJob, execScanJob, scan, hl, foldScanResults_eq,
        error_mem_errorsOnly]
      constructor
      · rintro ⟨x, hx, hm⟩
        exact ⟨x, hx, by cases x <;> simp_all⟩
      · rintro ⟨x, hx, hm⟩
        exact ⟨x, hx, by cases x <;> simp_all⟩
  | Remove path =>
    cases hr : fs.removeOk path with
    | true => simp [execJob, execRemoveJob, hr]
    | false => simp [execJob, execRemoveJob, hr]

/-- Over a whole (completed) run, the OR of the per-job flags is set iff
some error event was reported. -/
theorem runQueue_error_iff (fs : Fs) :
    ∀ (fuel : Nat) (jobs : List Job) (he : Bool) (evs : List Event),
      runQueue fs fuel jobs = some (he, evs) →
      (he = true ↔ Event.error ∈ evs)
  | fuel, [], he, evs, h => by
    cases fuel <;> simp [runQueue] at h <;> simp [h.1, h.2]
  | 0, j :: rest, he, evs, h => by simp [runQueue] at h
  | fuel + 1, j :: rest, he, evs, h => by
    rw [runQueue] at h
    rcases hr : runQueue fs fuel (rest ++ (execJob fs false j).2.2)
      with _ | ⟨he2, evs2⟩ <;> simp [hr] at h
    have ihr := runQueue_error_iff fs fuel _ he2 evs2 hr
    have hj := execJob_error_iff fs j
    rw [← h.1, ← h.2]
    simp only [List.mem_append, Bool.or_eq_true]
    tauto

/-! ## Claims -/

/-- C1: For every directory listing (sequence of `(name, is_directory)`
entries, every entry's type determinable) processed by one Scanner
invocation, the set of paths emitted as `Remove` jobs equals the set of
entries that are directories named with the artifact marker (`target`)
and have a sibling entry named with the manifest marker (`Cargo.toml`) in
the same listing; and the set is invariant under reordering the listing,
in particular under which of the two markers appears first. -/
theorem scanner_remove_set (dir : FsPath) (L L2 : List DirEntry)
    (hclean : ∀ e ∈ L, e.typeErr = false) (hperm : L.Perm L2) :
    (∀ p, p ∈ removePaths (scanGo dir ScanState.Nothing L) ↔
      ((∃ e ∈ L, e.isDir = true ∧ e.name = "target" ∧ p = dir ++ [e.name]) ∧
        ∃ e ∈ L, e.name = "Cargo.toml")) ∧
    (∀ p, p ∈ removePaths (scanGo dir ScanState.Nothing L) ↔
      p ∈ removePaths (scanGo dir ScanState.Nothing L2)) := by
  have hclean2 : ∀ e ∈ L2, e.typeErr = false :=
    fun e heL2 => hclean e (hperm.mem_iff.mpr heL2)
  constructor
  · intro p
    rw [removePaths_nothing dir p L hclean]
    constructor
    · rintro ⟨rfl, ⟨e, heL, hed, hen⟩, hc⟩
      exact ⟨⟨e, heL, hed, hen, by rw [hen]⟩, hc⟩
    · rintro ⟨⟨e, heL, hed, hen, rfl⟩, hc⟩
      exact ⟨by rw [hen], ⟨e, heL, hed, hen⟩, hc⟩
  · intro p
    rw [removePaths_nothing dir p L hclean,
      removePaths_nothing dir p L2 hclean2]
    constructor
    · rintro ⟨h1, ⟨e, heL, h2⟩, e2, he2L, h3⟩
      exact ⟨h1, ⟨e, hperm.mem_iff.mp heL, h2⟩,
        e2, hperm.mem_iff.mp he2L, h3⟩
    · rintro ⟨h1, ⟨e, heL, h2⟩, e2, he2L, h3⟩
      exact ⟨h1, ⟨e, hperm.mem_iff.mpr heL, h2⟩,
        e2, hperm.mem_iff.mpr he2L, h3⟩

theorem scanner_remove_set_witness :
    (["p", "target"] ∈ removePaths (scanGo ["p"] ScanState.Nothing
        [⟨"Cargo.toml", false, false⟩, ⟨"target", true, false⟩]) ↔
      ((∃ e ∈ [DirEntry.mk "Cargo.toml" false false,
            DirEntry.mk "target" true false],
          e.isDir = true ∧ e.name = "target" ∧
            ["p", "target"] = ["p"] ++ [e.name]) ∧
        ∃ e ∈ [DirEntry.mk "Cargo.toml" false false,
            DirEntry.mk "target" true false], e.name = "Cargo.toml")) ∧
    (["p", "target"] ∈ removePaths (scanGo ["p"] ScanState.Nothing
        [⟨"Cargo.toml", false, false⟩, ⟨"target", true, false⟩]) ↔
      ["p", "target"] ∈ removePaths (scanGo ["p"] ScanState.Nothing
        [⟨"target", true, false⟩, ⟨"Cargo.toml", false, false⟩])) :=
  ⟨(scanner_remove_set ["p"]
      [⟨"Cargo.toml", false, false⟩, ⟨"target", true, false⟩]
      [⟨"target", true, false⟩, ⟨"Cargo.toml", false, false⟩]
      (by decide)
      (List.Perm.swap (DirEntry.mk "target" true false)
        (DirEntry.mk "Cargo.toml" false false) [])).1 ["p", "target"],
   (scanner_remove_set ["p"]
      [⟨"Cargo.toml", false, false⟩, ⟨"target", true, false⟩]
      [⟨"target", true, false⟩, ⟨"Cargo.toml", false, false⟩]
      (by decide)
      (List.Perm.swap (DirEntry.mk "target" true false)
        (DirEntry.mk "Cargo.toml" false false) [])).2 ["p", "target"]⟩

/-- C2: When the state is `FoundTarget p` (a candidate artifact pending)
and the next entry is the manifest marker file, the state transitions to
`FoundCargoToml` and that step emits `Remove p`. -/
theorem manifest_confirms_pending_artifact (dir p : FsPath) (e : DirEntry)
    (hname : e.name = "Cargo.toml") (hok : e.typeErr = false) :
    process_entry dir (ScanState.FoundTarget p) e =
      Except.ok (ScanState.FoundCargoToml, some (Job.Remove p)) := by
  simp [process_entry, hok, hname]

theorem manifest_confirms_pending_artifact_witness :
    process_entry ["p"] (ScanState.FoundTarget ["p", "target"])
        ⟨"Cargo.toml", false, false⟩ =
      Except.ok (ScanState.FoundCargoToml,
        some (Job.Remove ["p", "target"])) :=
  manifest_confirms_pending_artifact ["p"] ["p", "target"]
    ⟨"Cargo.toml", false, false⟩ rfl rfl

/-- C5: A failing entry yields exactly one error at its position, leaves
the state unchanged and does not disturb the processing of the remaining
entries (which proceed exactly as if the failing entry were absent);
failure of the listing itself (`none`) is one error for the whole scan
and yields no jobs. -/
theorem scan_error_isolation (dir : FsPath) (s : ScanState)
    (xs ys : List DirEntry) (e : DirEntry) (he : e.typeErr = true) :
    scan dir none = Except.error () ∧
    scanGo dir s (xs ++ e :: ys) =
      scanGo dir s xs ++
        Except.error () :: scanGo dir (stateAfter dir s xs) ys ∧
    scanGo dir s (xs ++ ys) =
      scanGo dir s xs ++ scanGo dir (stateAfter dir s xs) ys := by
  refine ⟨rfl, ?_, scanGo_append dir xs ys s⟩
  rw [scanGo_append dir xs (e :: ys) s]
  congr 1
  rw [scanGo]
  simp [process_entry, he]

theorem scan_error_isolation_witness :
    scan ["p"] none = Except.error () ∧
    scanGo ["p"] ScanState.Nothing
        ([⟨"a", true, false⟩] ++ ⟨"bad", false, true⟩ :: [⟨"b", true, false⟩]) =
      scanGo ["p"] ScanState.Nothing [⟨"a", true, false⟩] ++
        Except.error () :: scanGo ["p"]
          (stateAfter ["p"] ScanState.Nothing [⟨"a", true, false⟩])
          [⟨"b", true, false⟩] ∧
    scanGo ["p"] ScanState.Nothing
        ([⟨"a", true, false⟩] ++ [⟨"b", true, false⟩]) =
      scanGo ["p"] ScanState.Nothing [⟨"a", true, false⟩] ++
        scanGo ["p"] (stateAfter ["p"] ScanState.Nothing [⟨"a", true, false⟩])
          [⟨"b", true, false⟩] :=
  scan_error_isolation ["p"] ScanState.Nothing [⟨"a", true, false⟩]
    [⟨"b", true, false⟩] ⟨"bad", false, true⟩ rfl

/-- C8: With the state already `FoundCargoToml`, a second (or later)
manifest entry is a no-op: the state is unchanged, no job is emitted, and
the step of the listing loop yields nothing. -/
theorem duplicate_manifest_noop (dir : FsPath) (e : DirEntry)
    (rest : List DirEntry) (hname : e.name = "Cargo.toml")
    (hok : e.typeErr = false) :
    process_entry dir ScanState.FoundCargoToml e =
      Except.ok (ScanState.FoundCargoToml, none) ∧
    scanGo dir ScanState.FoundCargoToml (e :: rest) =
      scanGo dir ScanState.FoundCargoToml rest := by
  have h1 : process_entry dir ScanState.FoundCargoToml e =
      Except.ok (ScanState.FoundCargoToml, none) := by
    simp [process_entry, hok, hname]
  exact ⟨h1, by rw [scanGo, h1]⟩

theorem duplicate_manifest_noop_witness :
    process_entry ["p"] ScanState.FoundCargoToml
        ⟨"Cargo.toml", false, false⟩ =
      Except.ok (ScanState.FoundCargoToml, none) :=
  (duplicate_manifest_noop ["p"] ⟨"Cargo.toml", false, false⟩ [] rfl rfl).1

/-- C3 counterexample: with the queue closed, the worker classifies
subdirectory `sub` successfully, its re-enqueue fails
(`sender.send(job).is_err()` is true) and the fold of main.rs line 65
*does* set the step's failure flag — the drop is not silent with respect
to the failure result. -/
theorem closed_queue_drop_sets_flag_cex :
    (execScanJob true ["p"] (some [⟨"sub", true, false⟩])).2.1 = true := by
  decide

/-- C3 amended: when the queue is closed, a successfully classified job is
dropped — nothing is re-enqueued and no Observer event is reported for
it — but the failed send is OR-ed into the worker's failure flag and so
contributes to the run's aggregate failure result. -/
theorem closed_queue_drop_flagged (dir : FsPath) (entries : List DirEntry)
    (h : ∃ r ∈ scanGo dir ScanState.Nothing entries, ∃ j, r = Except.ok j) :
    (execScanJob true dir (some entries)).2.1 = true ∧
    (execScanJob true dir (some entries)).2.2 = [] ∧
    (execScanJob true dir (some entries)).1 =
      (execScanJob false dir (some entries)).1 := by
  obtain ⟨r, hr, j, rfl⟩ := h
  refine ⟨?_, ?_, ?_⟩
  · simp [execScanJob, scan, foldScanResults_eq]
    exact ⟨Except.ok j, hr, rfl⟩
  · simp [execScanJob, scan, foldScanResults_eq]
  · simp [execScanJob, scan, foldScanResults_eq]

theorem closed_queue_drop_flagged_witness :
    (execScanJob true ["p"] (some [⟨"sub", true, false⟩])).2.1 = true ∧
    (execScanJob true ["p"] (some [⟨"sub", true, false⟩])).2.2 = [] ∧
    (execScanJob true ["p"] (some [⟨"sub", true, false⟩])).1 =
      (execScanJob false ["p"] (some [⟨"sub", true, false⟩])).1 :=
  closed_queue_drop_flagged ["p"] [⟨"sub", true, false⟩]
    ⟨Except.ok (Job.Scan ["p", "sub"]), by simp [scanGo, process_entry],
      Job.Scan ["p", "sub"], rfl⟩

/-- A tiny concrete filesystem: `/r` holds `Cargo.toml` then `target`;
every other directory lists empty; removals succeed. -/
def sampleFs : Fs where
  listing p :=
    if p = ["r"] then
      some [⟨"Cargo.toml", false, false⟩, ⟨"target", true, false⟩]
    else some []
  removeOk _ := true

/-- C4 counterexample: called with zero workers, `clean_dir` *does*
terminate and return a result: the scope spawns no threads,
`workers.into_iter().any(..)` over the empty vector is `false`, and the
function returns `true` at once — it does not hang as claimed. -/
theorem clean_dir_zero_workers_cex :
    clean_dir sampleFs 0 ["r"] 0 = some true := rfl

/-- C4 amended: when the worker count is zero, no worker consumes the
queue — the seeded root job is discarded with the queue — and `clean_dir`
returns `true` (success) immediately, for every filesystem, root and
fuel, so the process exits with status 0 having scanned nothing. -/
theorem clean_dir_zero_workers (fs : Fs) (dir : FsPath) (fuel : Nat) :
    clean_dir fs 0 dir fuel = some true := rfl

/-- C6: Executing one `Scan` job reports the scanned-directory event
exactly once, and for that directory — whether the listing succeeded,
partially failed (per-entry errors) or failed entirely, and whether or
not the queue is closed. -/
theorem scan_job_reports_scanned_once (qc : Bool) (dir : FsPath)
    (listing : Option (List DirEntry)) :
    scannedEvents (execScanJob qc dir listing).1 = [Event.scanned dir] := by
  cases listing with
  | none => rfl
  | some entries =>
    simp [execScanJob, scan, foldScanResults_eq, scannedEvents_append,
      scannedEvents_errorsOnly]
    simp [scannedEvents]

/-- C7: For a completed run with at least one worker, the boolean returned
by `clean_dir` is the negated OR of the per-job failure flags, and it is
`true` — equivalently the exit status is 0 — iff no error event (scan
failure, entry-metadata failure or deletion failure) was reported
anywhere during the run. -/
theorem clean_dir_success_iff_no_error (fs : Fs) (wc fuel : Nat)
    (dir : FsPath) (he : Bool) (evs : List Event) (hwc : wc ≠ 0)
    (hrun : runQueue fs fuel [Job.Scan dir] = some (he, evs)) :
    clean_dir fs wc dir fuel = some (!he) ∧
    ((!he) = true ↔ Event.error ∉ evs) ∧
    (mainExitCode (!he) = 0 ↔ Event.error ∉ evs) := by
  have hiff := runQueue_error_iff fs fuel [Job.Scan dir] he evs hrun
  refine ⟨?_, ?_, ?_⟩
  · simp [clean_dir, hwc, hrun]
  · cases he <;> simp_all
  · cases he <;> simp_all [mainExitCode]

theorem clean_dir_success_iff_no_error_witness :
    clean_dir sampleFs 1 ["r"] 3 = some (!false) ∧
    ((!false) = true ↔
      Event.error ∉ [Event.scanned ["r"], Event.removal ["r", "target"]]) ∧
    (mainExitCode (!false) = 0 ↔
      Event.error ∉ [Event.scanned ["r"], Event.removal ["r", "target"]]) :=
  clean_dir_success_iff_no_error sampleFs 1 3 ["r"] false
    [Event.scanned ["r"], Event.removal ["r", "target"]]
    (by decide) (by decide)

/-- C9: An entry named `Cargo.toml` is classified as the manifest marker
purely by name: whatever its file type — in particular a *directory*
named `Cargo.toml` — it drives the manifest transitions (including
confirming a pending artifact for removal) and is never emitted as a
`Scan` job, so its contents are never recursed into. -/
theorem manifest_classified_by_name_only (dir : FsPath) (s : ScanState)
    (e : DirEntry) (hname : e.name = "Cargo.toml")
    (hok : e.typeErr = false) :
    process_entry dir s e = Except.ok (match s with
      | ScanState.FoundTarget t =>
          (ScanState.FoundCargoToml, some (Job.Remove t))
      | _ => (ScanState.FoundCargoToml, none)) ∧
    ∀ s' j p, process_entry dir s e = Except.ok (s', j) →
      j ≠ some (Job.Scan p) := by
  have h := process_entry_manifest_eq dir s e hok hname
  constructor
  · rw [h]
    cases s <;> rfl
  · intro s' j p hj
    rw [h] at hj
    cases s <;> simp at hj <;> rcases hj with ⟨-, rfl⟩ <;> simp

theorem manifest_classified_by_name_only_witness :
    process_entry ["p"] (ScanState.FoundTarget ["p", "target"])
        ⟨"Cargo.toml", true, false⟩ =
      Except.ok (ScanState.FoundCargoToml,
        some (Job.Remove ["p", "target"])) :=
  (manifest_classified_by_name_only ["p"]
    (ScanState.FoundTarget ["p", "target"]) ⟨"Cargo.toml", true, false⟩
    rfl rfl).1

/-- C10: A directory entry named `target` is never emitted as a `Scan`
job in any scanner state: the step either records it as the pending
artifact, emits `Remove` for it, or ignores it — and over a whole listing
no `Scan` job ever targets the `target` child, so its contents are never
listed.  Every such directory is removed wholesale or left untouched. -/
theorem target_dir_never_scanned (dir : FsPath) (s : ScanState)
    (e : DirEntry) (L : List DirEntry) (hname : e.name = "target")
    (hdir : e.isDir = true) (hok : e.typeErr = false) :
    process_entry dir s e = Except.ok (match s with
      | ScanState.Nothing => (ScanState.FoundTarget (dir ++ ["target"]), none)
      | ScanState.FoundCargoToml =>
          (ScanState.FoundCargoToml, some (Job.Remove (dir ++ ["target"])))
      | ScanState.FoundTarget t => (ScanState.FoundTarget t, none)) ∧
    ∀ p, Except.ok (Job.Scan p) ∈ scanGo dir s L → p ≠ dir ++ ["target"] := by
  refine ⟨process_entry_targetDir_eq dir s e hok hname hdir, ?_⟩
  intro p hp heq
  obtain ⟨n, rfl, hn, -⟩ := scanGo_scan_shape dir L s p hp
  simp only [List.append_cancel_left_eq, List.cons.injEq, and_true] at heq
  exact hn heq

theorem target_dir_never_scanned_witness :
    (process_entry ["p"] ScanState.Nothing ⟨"target", true, false⟩ =
      Except.ok (ScanState.FoundTarget (["p"] ++ ["target"]), none)) ∧
    ["p", "sub"] ≠ ["p"] ++ ["target"] :=
  ⟨(target_dir_never_scanned ["p"] ScanState.Nothing ⟨"target", true, false⟩
      [⟨"sub", true, false⟩] rfl rfl rfl).1,
   (target_dir_never_scanned ["p"] ScanState.Nothing ⟨"target", true, false⟩
      [⟨"sub", true, false⟩] rfl rfl rfl).2 ["p", "sub"]
      (by simp [scanGo, process_entry])⟩
